import Mathlib

/-!
Verification of the rustchat relay server against its design document.

The development shallowly embeds the Rust sources:

* `src/common.rs` — the envelope types (`ClientMessage`, `ServerMessage`,
  `Message`) and the length-prefixed codec `LengthCodec`
  (`decode` at lines 74-84, `encode` at lines 91-96);
* `src/bin/server.rs` — the shared `ServerState`, the routing functions
  `broadcast` (152-170), `dispatch` (173-205), `command` (208-270) and the
  shutdown branch of `main` (84-100).

Rust strings are modelled as lists of Unicode scalar values (`Bytes`);
all protocol literals are ASCII, so on every concrete value appearing in the
claims this coincides with the UTF-8 byte view used on the wire.  Machine
integers are modelled as `Nat` with an explicit `% 2 ^ 32` where the code
casts `usize` to `u32`.

The serde_json serialization of `Message` is third-party derived code that is
not part of the repository sources.  Modelled from the spec: the spec fixes it
as a self-describing, field-named textual encoding consistent between encoder
and decoder, so `serMessage` below reproduces the compact externally-tagged
JSON layout that the serde derive produces for these types (struct variants as
one-key objects with fields in declaration order, the unit variant `Exit` as a
bare JSON string, strings escaped the way serde_json escapes them), and
`parseMessage` is the matching strict reader used by `decode`.
-/

/-- A Rust string or byte buffer: a list of Unicode scalar values.  All
protocol framing bytes are ASCII, where scalar values and UTF-8 bytes agree. -/
abbrev Bytes := List Nat

/-- Client-to-server envelope variants, from `ClientMessage` in common.rs.
Field order matches the Rust declaration order. -/
inductive ClientMessage where
  | Broadcast (from_ content : Bytes)
  | Private (from_ to_ content : Bytes)
  | Command (from_ command : Bytes)
  | Register (name : Bytes)
deriving DecidableEq

/-- Server-to-client envelope variants, from `ServerMessage` in common.rs.
Field order matches the Rust declaration order: `UserList`, `Error` and
`History` carry `content` before `to`. -/
inductive ServerMessage where
  | BroadcastMessage (from_ content : Bytes)
  | PrivateMessage (from_ to_ content : Bytes)
  | UserList (content : List Bytes) (to_ : Bytes)
  | Error (content to_ : Bytes)
  | System (content : Bytes)
  | History (content to_ : Bytes)
  | Exit
deriving DecidableEq

/-- The wire envelope, from `Message` in common.rs. -/
inductive Message where
  | Clientmsg (m : ClientMessage)
  | Servermsg (m : ServerMessage)
deriving DecidableEq

/-! ### ASCII literals

Each definition lists the code points of one protocol literal; the comment
names the text it spells. -/

/-- Bytes of the JSON fragment: quote Clientmsg quote colon. -/
def kClientmsg : Bytes := [34, 67, 108, 105, 101, 110, 116, 109, 115, 103, 34, 58]

/-- Bytes of the JSON fragment: quote Servermsg quote colon. -/
def kServermsg : Bytes := [34, 83, 101, 114, 118, 101, 114, 109, 115, 103, 34, 58]

/-- Bytes of the variant tag Broadcast. -/
def tagBroadcast : Bytes := [66, 114, 111, 97, 100, 99, 97, 115, 116]

/-- Bytes of the variant tag Private. -/
def tagPrivate : Bytes := [80, 114, 105, 118, 97, 116, 101]

/-- Bytes of the variant tag Command. -/
def tagCommand : Bytes := [67, 111, 109, 109, 97, 110, 100]

/-- Bytes of the variant tag Register. -/
def tagRegister : Bytes := [82, 101, 103, 105, 115, 116, 101, 114]

/-- Bytes of the variant tag BroadcastMessage. -/
def tagBroadcastMessage : Bytes := [66, 114, 111, 97, 100, 99, 97, 115, 116, 77, 101, 115, 115, 97, 103, 101]

/-- Bytes of the variant tag PrivateMessage. -/
def tagPrivateMessage : Bytes := [80, 114, 105, 118, 97, 116, 101, 77, 101, 115, 115, 97, 103, 101]

/-- Bytes of the variant tag UserList. -/
def tagUserList : Bytes := [85, 115, 101, 114, 76, 105, 115, 116]

/-- Bytes of the variant tag Error. -/
def tagError : Bytes := [69, 114, 114, 111, 114]

/-- Bytes of the variant tag System. -/
def tagSystem : Bytes := [83, 121, 115, 116, 101, 109]

/-- Bytes of the variant tag History. -/
def tagHistory : Bytes := [72, 105, 115, 116, 111, 114, 121]

/-- Bytes of the variant tag Exit. -/
def tagExit : Bytes := [69, 120, 105, 116]

/-- Bytes of the JSON fragment: quote from quote colon. -/
def kFrom : Bytes := [34, 102, 114, 111, 109, 34, 58]

/-- Bytes of the JSON fragment: quote to quote colon. -/
def kTo : Bytes := [34, 116, 111, 34, 58]

/-- Bytes of the JSON fragment: quote content quote colon. -/
def kContent : Bytes := [34, 99, 111, 110, 116, 101, 110, 116, 34, 58]

/-- Bytes of the JSON fragment: quote command quote colon. -/
def kCommand : Bytes := [34, 99, 111, 109, 109, 97, 110, 100, 34, 58]

/-- Bytes of the JSON fragment: quote name quote colon. -/
def kName : Bytes := [34, 110, 97, 109, 101, 34, 58]

/-! ### String escaping, as serde_json writes string literals -/

/-- Lower-case hex digit of a value below sixteen, as serde_json prints in
its control-character escapes. -/
def hexDigit (x : Nat) : Nat := if x < 10 then 48 + x else 87 + x

/-- Value of one hex digit character, accepting the digits, lower-case and
upper-case letter forms. -/
def hexVal (d : Nat) : Option Nat :=
  if 48 ≤ d ∧ d ≤ 57 then some (d - 48)
  else if 97 ≤ d ∧ d ≤ 102 then some (d - 87)
  else if 65 ≤ d ∧ d ≤ 70 then some (d - 55)
  else none

/-- serde_json escaping of one string element: quote and backslash get a
backslash escape, the control characters backspace, tab, newline, form feed
and carriage return get their short escapes, any other control character gets
a four-digit unicode escape, everything else passes through unchanged. -/
def escByte (b : Nat) : Bytes :=
  if b = 34 then [92, 34]
  else if b = 92 then [92, 92]
  else if b = 8 then [92, 98]
  else if b = 9 then [92, 116]
  else if b = 10 then [92, 110]
  else if b = 12 then [92, 102]
  else if b = 13 then [92, 114]
  else if b < 32 then [92, 117, 48, 48, hexDigit (b / 16), hexDigit (b % 16)]
  else [b]

/-- serde_json escaping of a whole string body. -/
def escBytes : Bytes → Bytes
  | [] => []
  | b :: bs => escByte b ++ escBytes bs

/-- A JSON string literal: opening quote, escaped body, closing quote. -/
def serStr (s : Bytes) : Bytes := 34 :: (escBytes s ++ [34])

/-- Comma-separated JSON string literals, the body of a JSON array. -/
def serItems : List Bytes → Bytes
  | [] => []
  | s :: ss => serStr s ++ (if ss = [] then [] else 44 :: serItems ss)

/-- A JSON array of strings: bracket, comma-separated items, bracket. -/
def serStrList (ss : List Bytes) : Bytes := 91 :: (serItems ss ++ [93])

/-! ### Serialization of envelopes (compact externally tagged JSON) -/

/-- Serialized form of a `ClientMessage`: a one-key object whose key is the
variant tag and whose value lists the fields in declaration order. -/
def serClient : ClientMessage → Bytes
  | ClientMessage.Broadcast f c =>
      123 :: (serStr tagBroadcast ++ 58 :: 123 :: (kFrom ++ serStr f ++
        44 :: (kContent ++ serStr c ++ [125, 125])))
  | ClientMessage.Private f t c =>
      123 :: (serStr tagPrivate ++ 58 :: 123 :: (kFrom ++ serStr f ++
        44 :: (kTo ++ serStr t ++ 44 :: (kContent ++ serStr c ++ [125, 125]))))
  | ClientMessage.Command f cmd =>
      123 :: (serStr tagCommand ++ 58 :: 123 :: (kFrom ++ serStr f ++
        44 :: (kCommand ++ serStr cmd ++ [125, 125])))
  | ClientMessage.Register n =>
      123 :: (serStr tagRegister ++ 58 :: 123 :: (kName ++ serStr n ++ [125, 125]))

/-- Serialized form of a `ServerMessage`.  The unit variant `Exit` serializes
as the bare JSON string of its tag. -/
def serServer : ServerMessage → Bytes
  | ServerMessage.BroadcastMessage f c =>
      123 :: (serStr tagBroadcastMessage ++ 58 :: 123 :: (kFrom ++ serStr f ++
        44 :: (kContent ++ serStr c ++ [125, 125])))
  | ServerMessage.PrivateMessage f t c =>
      123 :: (serStr tagPrivateMessage ++ 58 :: 123 :: (kFrom ++ serStr f ++
        44 :: (kTo ++ serStr t ++ 44 :: (kContent ++ serStr c ++ [125, 125]))))
  | ServerMessage.UserList cs t =>
      123 :: (serStr tagUserList ++ 58 :: 123 :: (kContent ++ serStrList cs ++
        44 :: (kTo ++ serStr t ++ [125, 125])))
  | ServerMessage.Error c t =>
      123 :: (serStr tagError ++ 58 :: 123 :: (kContent ++ serStr c ++
        44 :: (kTo ++ serStr t ++ [125, 125])))
  | ServerMessage.System c =>
      123 :: (serStr tagSystem ++ 58 :: 123 :: (kContent ++ serStr c ++ [125]))
  | ServerMessage.History c t =>
      123 :: (serStr tagHistory ++ 58 :: 123 :: (kContent ++ serStr c ++
        44 :: (kTo ++ serStr t ++ [125, 125])))
  | ServerMessage.Exit => serStr tagExit

/-- Serialized form of the top-level `Message` envelope. -/
def serMessage : Message → Bytes
  | Message.Clientmsg c => 123 :: (kClientmsg ++ serClient c ++ [125])
  | Message.Servermsg s => 123 :: (kServermsg ++ serServer s ++ [125])

/-! ### Parsing (the strict reader matching the serializer) -/

/-- Consume an expected literal prefix, returning the remainder. -/
def expect : Bytes → Bytes → Option Bytes
  | [], l => some l
  | _ :: _, [] => none
  | p :: ps, b :: bs => if b = p then expect ps bs else none

/-- Unescape one short escape character. -/
def unesc (e : Nat) : Option Nat :=
  if e = 34 then some 34
  else if e = 92 then some 92
  else if e = 47 then some 47
  else if e = 98 then some 8
  else if e = 116 then some 9
  else if e = 110 then some 10
  else if e = 102 then some 12
  else if e = 114 then some 13
  else none

/-- Read a JSON string body up to and including the closing quote, undoing
the escapes of `escBytes`; returns the string and the unread remainder. -/
def parseStrBody : Bytes → Option (Bytes × Bytes)
  | [] => none
  | b :: rest =>
    if b = 34 then some ([], rest)
    else if b = 92 then
      match rest with
      | [] => none
      | e :: rest2 =>
        if e = 117 then
          match rest2 with
          | h1 :: h2 :: h3 :: h4 :: rest3 =>
            match hexVal h1, hexVal h2, hexVal h3, hexVal h4 with
            | some a, some b2, some c, some d =>
              match parseStrBody rest3 with
              | some (s, r) => some ((((a * 16 + b2) * 16 + c) * 16 + d) :: s, r)
              | none => none
            | _, _, _, _ => none
          | _ => none
        else
          match unesc e with
          | some c =>
            match parseStrBody rest2 with
            | some (s, r) => some (c :: s, r)
            | none => none
          | none => none
    else
      match parseStrBody rest with
      | some (s, r) => some (b :: s, r)
      | none => none

/-- Read a JSON string literal including its opening quote. -/
def parseStrVal (l : Bytes) : Option (Bytes × Bytes) :=
  match expect [34] l with
  | some r => parseStrBody r
  | none => none

/-- Read the comma-separated items of a nonempty JSON string array up to and
including the closing bracket.  The fuel bounds the number of items; it is
instantiated with the length of the input, which always suffices. -/
def parseItemsF : Nat → Bytes → Option (List Bytes × Bytes)
  | 0, _ => none
  | fuel + 1, l =>
    match parseStrVal l with
    | some (s, r) =>
      match expect [44] r with
      | some r2 =>
        match parseItemsF fuel r2 with
        | some (ss, r3) => some (s :: ss, r3)
        | none => none
      | none =>
        match expect [93] r with
        | some r2 => some ([s], r2)
        | none => none
    | none => none

/-- Read a JSON array of strings. -/
def parseStrList (l : Bytes) : Option (List Bytes × Bytes) :=
  match expect [91] l with
  | some r =>
    match expect [93] r with
    | some r2 => some ([], r2)
    | none => parseItemsF r.length r
  | none => none

/-- Read a serialized `ClientMessage`: open brace, quoted variant tag, colon,
then the fields of that variant in declaration order. -/
def parseClient (l : Bytes) : Option (ClientMessage × Bytes) :=
  match expect [123, 34] l with
  | none => none
  | some r =>
    match parseStrBody r with
    | none => none
    | some (tag, r2) =>
      if tag = tagBroadcast then
        match expect (58 :: 123 :: kFrom) r2 with
        | none => none
        | some r3 =>
          match parseStrVal r3 with
          | none => none
          | some (f, r4) =>
            match expect (44 :: kContent) r4 with
            | none => none
            | some r5 =>
              match parseStrVal r5 with
              | none => none
              | some (c, r6) =>
                match expect [125, 125] r6 with
                | none => none
                | some r7 => some (ClientMessage.Broadcast f c, r7)
      else if tag = tagPrivate then
        match expect (58 :: 123 :: kFrom) r2 with
        | none => none
        | some r3 =>
          match parseStrVal r3 with
          | none => none
          | some (f, r4) =>
            match expect (44 :: kTo) r4 with
            | none => none
            | some r5 =>
              match parseStrVal r5 with
              | none => none
              | some (t, r6) =>
                match expect (44 :: kContent) r6 with
                | none => none
                | some r7 =>
                  match parseStrVal r7 with
                  | none => none
                  | some (c, r8) =>
                    match expect [125, 125] r8 with
                    | none => none
                    | some r9 => some (ClientMessage.Private f t c, r9)
      else if tag = tagCommand then
        match expect (58 :: 123 :: kFrom) r2 with
        | none => none
        | some r3 =>
          match parseStrVal r3 with
          | none => none
          | some (f, r4) =>
            match expect (44 :: kCommand) r4 with
            | none => none
            | some r5 =>
              match parseStrVal r5 with
              | none => none
              | some (c, r6) =>
                match expect [125, 125] r6 with
                | none => none
                | some r7 => some (ClientMessage.Command f c, r7)
      else if tag = tagRegister then
        match expect (58 :: 123 :: kName) r2 with
        | none => none
        | some r3 =>
          match parseStrVal r3 with
          | none => none
          | some (n, r4) =>
            match expect [125, 125] r4 with
            | none => none
            | some r5 => some (ClientMessage.Register n, r5)
      else none

/-- Read a serialized `ServerMessage`.  A leading brace selects a struct
variant by its quoted tag; a bare string must be the `Exit` tag. -/
def parseServer (l : Bytes) : Option (ServerMessage × Bytes) :=
  match expect [123, 34] l with
  | some r =>
    match parseStrBody r with
    | none => none
    | some (tag, r2) =>
      if tag = tagBroadcastMessage then
        match expect (58 :: 123 :: kFrom) r2 with
        | none => none
        | some r3 =>
          match parseStrVal r3 with
          | none => none
          | some (f, r4) =>
            match expect (44 :: kContent) r4 with
            | none => none
            | some r5 =>
              match parseStrVal r5 with
              | none => none
              | some (c, r6) =>
                match expect [125, 125] r6 with
                | none => none
                | some r7 => some (ServerMessage.BroadcastMessage f c, r7)
      else if tag = tagPrivateMessage then
        match expect (58 :: 123 :: kFrom) r2 with
        | none => none
        | some r3 =>
          match parseStrVal r3 with
          | none => none
          | some (f, r4) =>
            match expect (44 :: kTo) r4 with
            | none => none
            | some r5 =>
              match parseStrVal r5 with
              | none => none
              | some (t, r6) =>
                match expect (44 :: kContent) r6 with
                | none => none
                | some r7 =>
                  match parseStrVal r7 with
                  | none => none
                  | some (c, r8) =>
                    match expect [125, 125] r8 with
                    | none => none
                    | some r9 => some (ServerMessage.PrivateMessage f t c, r9)
      else if tag = tagUserList then
        match expect (58 :: 123 :: kContent) r2 with
        | none => none
        | some r3 =>
          match parseStrList r3 with
          | none => none
          | some (cs, r4) =>
            match expect (44 :: kTo) r4 with
            | none => none
            | some r5 =>
              match parseStrVal r5 with
              | none => none
              | some (t, r6) =>
                match expect [125, 125] r6 with
                | none => none
                | some r7 => some (ServerMessage.UserList cs t, r7)
      else if tag = tagError then
        match expect (58 :: 123 :: kContent) r2 with
        | none => none
        | some r3 =>
          match parseStrVal r3 with
          | none => none
          | some (c, r4) =>
            match expect (44 :: kTo) r4 with
            | none => none
            | some r5 =>
              match parseStrVal r5 with
              | none => none
              | some (t, r6) =>
                match expect [125, 125] r6 with
                | none => none
                | some r7 => some (ServerMessage.Error c t, r7)
      else if tag = tagSystem then
        match expect (58 :: 123 :: kContent) r2 with
        | none => none
        | some r3 =>
          match parseStrVal r3 with
          | none => none
          | some (c, r4) =>
            match expect [125] r4 with
            | none => none
            | some r5 => some (ServerMessage.System c, r5)
      else if tag = tagHistory then
        match expect (58 :: 123 :: kContent) r2 with
        | none => none
        | some r3 =>
          match parseStrVal r3 with
          | none => none
          | some (c, r4) =>
            match expect (44 :: kTo) r4 with
            | none => none
            | some r5 =>
              match parseStrVal r5 with
              | none => none
              | some (t, r6) =>
                match expect [125, 125] r6 with
                | none => none
                | some r7 => some (ServerMessage.History c t, r7)
      else none
  | none =>
    match expect [34] l with
    | none => none
    | some r =>
      match parseStrBody r with
      | none => none
      | some (tag, r2) => if tag = tagExit then some (ServerMessage.Exit, r2) else none

/-- Read a whole serialized `Message`, requiring the input to be consumed
exactly, as serde_json from_slice does. -/
def parseMessage (l : Bytes) : Option Message :=
  match expect (123 :: kClientmsg) l with
  | some r =>
    match parseClient r with
    | none => none
    | some (c, r2) => if r2 = [125] then some (Message.Clientmsg c) else none
  | none =>
    match expect (123 :: kServermsg) l with
    | none => none
    | some r =>
      match parseServer r with
      | none => none
      | some (s, r2) => if r2 = [125] then some (Message.Servermsg s) else none

/-! ### The length-prefixed codec, from `codec::LengthCodec` in common.rs -/

/-- Big-endian bytes of a 32-bit value, as `put_u32` writes them.  The
argument is reduced modulo two to the thirty-two, modelling the cast of the
payload length from `usize` to `u32`. -/
def be32 (v : Nat) : Bytes :=
  [v / 16777216 % 256, v / 65536 % 256, v / 256 % 256, v % 256]

/-- The value of the first four buffer bytes read big-endian, as
`u32::from_be_bytes` on the four header bytes. -/
def readBE4 : Bytes → Nat
  | b0 :: b1 :: b2 :: b3 :: _ => ((b0 * 256 + b1) * 256 + b2) * 256 + b3
  | _ => 0

/-- Result of one `LengthCodec::decode` call: a produced frame or no frame
(`ok`), or a deserialization error (`err`). -/
inductive DRes where
  | ok (m : Option Message)
  | err
deriving DecidableEq

/-- `LengthCodec::encode`: serialize the item, append the payload length as a
4-byte big-endian `u32` (the `usize` length cast to `u32`), then the payload,
onto the destination buffer. -/
def encode (item : Message) (dst : Bytes) : Bytes :=
  let data := serMessage item
  dst ++ be32 (data.length % 4294967296) ++ data

/-- `LengthCodec::decode`: with fewer than four buffer bytes, or fewer than
four plus the declared length, report no frame and leave the buffer intact;
otherwise consume the header and payload and deserialize the payload.
Returns the result together with the buffer as the call leaves it. -/
def decode (src : Bytes) : DRes × Bytes :=
  if src.length < 4 then (.ok none, src)
  else
    let len := readBE4 src
    if src.length < 4 + len then (.ok none, src)
    else
      let data := (src.drop 4).take len
      let rest := (src.drop 4).drop len
      match parseMessage data with
      | some m => (.ok (some m), rest)
      | none => (.err, rest)

/-- Feeding buffer pieces to `decode` across successive calls, with the
unconsumed input accumulating in the partial-frame buffer, as the framed
stream does: after each piece arrives, one decode call runs; a produced frame
is emitted, a decode error tears the connection down.  Returns the emitted
frames and the final buffer. -/
def feedDecode : List Bytes → Bytes → List Message × Bytes
  | [], buf => ([], buf)
  | p :: ps, buf =>
    match decode (buf ++ p) with
    | (.ok (some m), rest) =>
      match feedDecode ps rest with
      | (ms, fin) => (m :: ms, fin)
    | (.ok none, rest) => feedDecode ps rest
    | (.err, rest) => ([], rest)

/-! ### Server text literals -/

/-- Bytes of the text: space broadcast colon space. -/
def litBroadcastSep : Bytes := [32, 98, 114, 111, 97, 100, 99, 97, 115, 116, 58, 32]

/-- Bytes of the text: You space arrow space. -/
def litYouArrow : Bytes := [89, 111, 117, 32, 8594, 32]

/-- Bytes of the text: colon space. -/
def litColonSpace : Bytes := [58, 32]

/-- Bytes of the text: space arrow space You colon space. -/
def litArrowYou : Bytes := [32, 8594, 32, 89, 111, 117, 58, 32]

/-- Bytes of the text: You issued colon space. -/
def litYouIssued : Bytes := [89, 111, 117, 32, 105, 115, 115, 117, 101, 100, 58, 32]

/-- Bytes of the text: Private object is not online or the name is incorrect,
with the trailing space the source writes. -/
def litPrivateError : Bytes := [80, 114, 105, 118, 97, 116, 101, 32, 111, 98, 106, 101, 99, 116, 32, 105, 115, 32, 110, 111, 116, 32, 111, 110, 108, 105, 110, 101, 32, 111, 114, 32, 116, 104, 101, 32, 110, 97, 109, 101, 32, 105, 115, 32, 105, 110, 99, 111, 114, 114, 101, 99, 116, 32]

/-- Bytes of the text: No User Online. -/
def litNoUserOnline : Bytes := [78, 111, 32, 85, 115, 101, 114, 32, 79, 110, 108, 105, 110, 101]

/-- Bytes of the global history header line. -/
def litHdrBroadcast : Bytes := [61, 61, 61, 32, 66, 114, 111, 97, 100, 99, 97, 115, 116, 32, 72, 105, 115, 116, 111, 114, 121, 32, 61, 61, 61]

/-- Bytes of the private history header line. -/
def litHdrPrivate : Bytes := [61, 61, 61, 32, 89, 111, 117, 114, 32, 80, 114, 105, 118, 97, 116, 101, 32, 72, 105, 115, 116, 111, 114, 121, 32, 61, 61, 61]

/-- Bytes of the text: slash users. -/
def litUsersCmd : Bytes := [47, 117, 115, 101, 114, 115]

/-- Bytes of the text: slash history. -/
def litHistoryCmd : Bytes := [47, 104, 105, 115, 116, 111, 114, 121]

/-! ### Server state and router, from src/bin/server.rs

`mpsc::Sender` handles are modelled by numeric identifiers; enqueueing a
reply to a handle is recorded as an emitted `(handle, message)` event.
`HashMap` is modelled as an association list with unique keys; iteration
order of a hash map is unspecified, the model iterates in list order. -/

/-- The history capacity, `MAX_HISTORY_SIZE` in server.rs. -/
def MAX_HISTORY_SIZE : Nat := 100

/-- The shared server state: the name-to-sender directory and the two
history stores, from `struct ServerState` in server.rs. -/
structure ServerState where
  clients : List (Bytes × Nat)
  broadcast_history : List Bytes
  private_history : List (Bytes × List Bytes)
deriving DecidableEq

/-- `HashMap::get`: the value stored under a key, if any. -/
def assocGet : List (Bytes × α) → Bytes → Option α
  | [], _ => none
  | (k, v) :: t, key => if k = key then some v else assocGet t key

/-- `HashMap::entry(key).or_default()` followed by storing a new value:
replace the value under the key in place, or append a fresh binding. -/
def assocUpdate : List (Bytes × α) → Bytes → α → List (Bytes × α)
  | [], key, v => [(key, v)]
  | (k, w) :: t, key, v =>
    if k = key then (key, v) :: t else (k, w) :: assocUpdate t key v

/-- The private history stored under a name, an empty sequence if the name
has no entry yet (`entry(..).or_default()` semantics on reads). -/
def histGet (ph : List (Bytes × List Bytes)) (k : Bytes) : List Bytes :=
  (assocGet ph k).getD []

/-- `push_back` followed by the capacity check of server.rs: append the
line, then drop the front entry when the length exceeds the capacity. -/
def histPush (l : List Bytes) (line : Bytes) : List Bytes :=
  let l2 := l ++ [line]
  if MAX_HISTORY_SIZE < l2.length then l2.tail else l2

/-- The broadcast history line, from line 157 of server.rs. -/
def fmtBroadcastLine (from_ content : Bytes) : Bytes :=
  from_ ++ litBroadcastSep ++ content

/-- The sender-side private history line, from line 181 of server.rs. -/
def fmtYouTo (to_ content : Bytes) : Bytes :=
  litYouArrow ++ to_ ++ litColonSpace ++ content

/-- The recipient-side private history line, from line 188 of server.rs. -/
def fmtFromYou (from_ content : Bytes) : Bytes :=
  from_ ++ litArrowYou ++ content

/-- The command journal line, from lines 217 and 246 of server.rs. -/
def fmtYouIssued (cmd : Bytes) : Bytes := litYouIssued ++ cmd

/-- `broadcast` (server.rs 152-170): append the broadcast line to the global
history with eviction, then enqueue a `BroadcastMessage` to every directory
handle. -/
def broadcast (from_ content : Bytes) (st : ServerState) :
    ServerState × List (Nat × Message) :=
  let st2 := { st with
    broadcast_history := histPush st.broadcast_history (fmtBroadcastLine from_ content) }
  (st2, st2.clients.map fun p =>
    (p.2, Message.Servermsg (ServerMessage.BroadcastMessage from_ content)))

/-- `dispatch` (server.rs 173-205): append the two private history lines
with eviction, unconditionally; then enqueue a `PrivateMessage` to the
target handle when registered, or otherwise an `Error` back to the sender
handle when that is registered. -/
def dispatch (from_ to_ content : Bytes) (st : ServerState) :
    ServerState × List (Nat × Message) :=
  let ph1 := assocUpdate st.private_history from_
    (histPush (histGet st.private_history from_) (fmtYouTo to_ content))
  let ph2 := assocUpdate ph1 to_
    (histPush (histGet ph1 to_) (fmtFromYou from_ content))
  let st2 := { st with private_history := ph2 }
  match assocGet st2.clients to_ with
  | some tx =>
    (st2, [(tx, Message.Servermsg (ServerMessage.PrivateMessage from_ to_ content))])
  | none =>
    match assocGet st2.clients from_ with
    | some tx => (st2, [(tx, Message.Servermsg (ServerMessage.Error litPrivateError from_))])
    | none => (st2, [])

/-- `command` (server.rs 208-270).  The users branch journals the request
with eviction and replies with the directory snapshot (or the no-user text
when the snapshot is empty); the history branch journals the request without
eviction and replies with the joined global and private histories; any other
command replies with an `Error` carrying the no-user text (the string the
source reuses on that branch).  Every reply goes to the handle registered
under the sender name, if any. -/
def command (from_ cmd : Bytes) (st : ServerState) :
    ServerState × List (Nat × Message) :=
  if cmd = litUsersCmd then
    let ph := assocUpdate st.private_history from_
      (histPush (histGet st.private_history from_) (fmtYouIssued cmd))
    let st2 := { st with private_history := ph }
    let user_list := st2.clients.map Prod.fst
    let reply := if user_list = [] then
        Message.Servermsg (ServerMessage.System litNoUserOnline)
      else
        Message.Servermsg (ServerMessage.UserList user_list from_)
    match assocGet st2.clients from_ with
    | some tx => (st2, [(tx, reply)])
    | none => (st2, [])
  else if cmd = litHistoryCmd then
    let ph := assocUpdate st.private_history from_
      (histGet st.private_history from_ ++ [fmtYouIssued cmd])
    let st2 := { st with private_history := ph }
    let lines := litHdrBroadcast :: (st2.broadcast_history ++ litHdrPrivate :: histGet ph from_)
    let text := List.intercalate [10] lines
    match assocGet st2.clients from_ with
    | some tx => (st2, [(tx, Message.Servermsg (ServerMessage.History text from_))])
    | none => (st2, [])
  else
    match assocGet st.clients from_ with
    | some tx => (st, [(tx, Message.Servermsg (ServerMessage.Error litNoUserOnline from_))])
    | none => (st, [])

/-! ### Shutdown fan-out, from the shutdown branch of `main` (server.rs 84-100) -/

/-- The shutdown notice. -/
def exitMsg : Message := Message.Servermsg ServerMessage.Exit

/-- An observable action of the shutdown branch: an enqueue to a handle, or
the clearing of the directory. -/
inductive Act where
  | send (h : Nat) (m : Message)
  | clearClients
deriving DecidableEq

/-- The action sequence of the shutdown branch: clone the directory, enqueue
`Exit` to every handle in it, then clear the directory. -/
def shutdownTrace (st : ServerState) : List Act :=
  (st.clients.map fun p => Act.send p.2 exitMsg) ++ [Act.clearClients]

/-- Effect of one shutdown action on the server state (sends do not change
the shared state). -/
def applyAct (st : ServerState) (a : Act) : ServerState :=
  match a with
  | Act.send _ _ => st
  | Act.clearClients => { st with clients := [] }

/-- The server state after the shutdown branch has run. -/
def runShutdown (st : ServerState) : ServerState :=
  (shutdownTrace st).foldl applyAct st

/-! ### Guard and suspension skeletons, for the locking discipline claim

Each list records, in program order, the guard acquisitions and releases and
the suspension points (queue sends, socket reads and writes) of one source
code path, with `memOp` for the in-memory directory and history accesses.
Rust temporary-lifetime rules place the release of a guard created in an
if-let scrutinee or in a for-loop iterator expression at the end of that
whole statement, which is what the skeletons reflect. -/

/-- One event of a control-flow skeleton. -/
inductive Step where
  | lockAcquire
  | lockRelease
  | memOp
  | queueSend
  | netRead
  | netWrite
deriving DecidableEq

/-- Scan a skeleton tracking the number of guards held; true when some
suspension point (queue send, socket read or write) occurs while at least
one guard is held. -/
def suspendsUnderLock : List Step → Nat → Bool
  | [], _ => false
  | s :: rest, depth =>
    match s with
    | Step.lockAcquire => suspendsUnderLock rest (depth + 1)
    | Step.lockRelease => suspendsUnderLock rest (depth - 1)
    | Step.memOp => suspendsUnderLock rest depth
    | _ => decide (0 < depth) || suspendsUnderLock rest depth

/-- Whether a code path holds the shared-state guard across a suspension
point. -/
def guardHeldAcrossSuspension (t : List Step) : Bool := suspendsUnderLock t 0

/-- Skeleton of `broadcast` (server.rs 152-170) with `n` recipients: history
block under the guard, snapshot under the guard, then the fan-out sends with
no guard held. -/
def broadcastSteps (n : Nat) : List Step :=
  [Step.lockAcquire, Step.memOp, Step.lockRelease,
   Step.lockAcquire, Step.memOp, Step.lockRelease] ++
  List.replicate n Step.queueSend

/-- Skeleton of `dispatch` (server.rs 173-204) on the path where the target
is registered: history block under the guard, then line 196 takes the guard
in the if-let scrutinee and line 197 awaits the queue send while that guard
is still alive. -/
def dispatchPresentSteps : List Step :=
  [Step.lockAcquire, Step.memOp, Step.lockRelease,
   Step.lockAcquire, Step.memOp, Step.queueSend, Step.lockRelease]

/-- Skeleton of the users branch of `command` (server.rs 210-239): journal
block under the guard, snapshot under the guard, list building unlocked,
then line 237 takes the guard in the if-let scrutinee and line 238 awaits
the queue send under it. -/
def commandUsersSteps : List Step :=
  [Step.lockAcquire, Step.memOp, Step.lockRelease,
   Step.lockAcquire, Step.memOp, Step.lockRelease,
   Step.memOp,
   Step.lockAcquire, Step.memOp, Step.queueSend, Step.lockRelease]

/-- Skeleton of the history branch of `command` (server.rs 240-262): one
explicit guard held from line 241 across the journal append, the history
reads and the line 258 queue send. -/
def commandHistorySteps : List Step :=
  [Step.lockAcquire, Step.memOp, Step.memOp, Step.queueSend, Step.lockRelease]

/-- Skeleton of the unknown-command branch of `command` (server.rs 263-268):
line 265 takes the guard in the if-let scrutinee and line 266 awaits the
queue send under it. -/
def commandUnknownSteps : List Step :=
  [Step.lockAcquire, Step.memOp, Step.queueSend, Step.lockRelease]

/-- Skeleton of `register` (server.rs 273-279) with `n` recipients: snapshot
under the guard released at the end of the let statement, then the fan-out
sends with no guard held. -/
def registerSteps (n : Nat) : List Step :=
  [Step.lockAcquire, Step.memOp, Step.lockRelease] ++
  List.replicate n Step.queueSend

/-- Skeleton of the leave fan-out in `handle_client` (server.rs 141-145)
with `n` remaining recipients: the directory removal under its own guard,
then line 143 takes the guard in the for-loop iterator expression, so every
send of the loop body awaits while that guard is alive; it is released when
the loop ends. -/
def leaveSteps (n : Nat) : List Step :=
  [Step.lockAcquire, Step.memOp, Step.lockRelease,
   Step.lockAcquire, Step.memOp] ++
  List.replicate n Step.queueSend ++ [Step.lockRelease]

/-- Skeleton of the shutdown branch of `main` (server.rs 84-100) with `n`
registered handles: snapshot under the guard released at the end of the let
statement, the fan-out sends with no guard held, then the directory clear
under its own guard. -/
def shutdownSteps (n : Nat) : List Step :=
  [Step.lockAcquire, Step.memOp, Step.lockRelease] ++
  List.replicate n Step.queueSend ++
  [Step.lockAcquire, Step.memOp, Step.lockRelease]

/-! ### The oversized envelope used by the codec counterexamples -/

/-- A broadcast payload of two to the thirty-two letters. -/
def bigContent : Bytes := List.replicate 4294967296 97

/-- A client envelope whose serialized payload is longer than a `u32` can
express, so the encoded length prefix wraps around. -/
def bigMsg : Message := Message.Clientmsg (ClientMessage.Broadcast [] bigContent)

/-- The serialized bytes of `bigMsg` that precede the run of letters. -/
def bigPrefix : Bytes :=
  123 :: (kClientmsg ++ 123 :: (serStr tagBroadcast ++ 58 :: 123 ::
    (kFrom ++ serStr [] ++ 44 :: (kContent ++ [34]))))

/-- The serialized bytes of `bigMsg` that follow the run of letters. -/
def bigSuffix : Bytes := [34, 125, 125, 125]

/-- The wrapped length prefix the encoder writes for `bigMsg`. -/
def cBig : Nat := bigPrefix.length + 4

/-- The bytes a decode call leaves unconsumed after failing on the truncated
payload of the encoded `bigMsg`. -/
def bigRest : Bytes := List.replicate 4294967292 97 ++ bigSuffix

/-! ### Lemmas and claim theorems -/


theorem expect_append (pre rest : Bytes) : expect pre (pre ++ rest) = some rest := by
  induction pre with
  | nil => rfl
  | cons p ps ih => simp [expect, ih]

theorem hexVal_hexDigit (x : Nat) (h : x < 16) : hexVal (hexDigit x) = some x := by
  unfold hexVal hexDigit
  split_ifs <;> simp_all <;> omega

theorem parseStrBody_esc (s rest : Bytes) :
    parseStrBody (escBytes s ++ 34 :: rest) = some (s, rest) := by
  induction s with
  | nil =>
    unfold parseStrBody
    simp [escBytes]
  | cons b bs ih =>
    by_cases h1 : b = 34
    · subst h1; simp only [escBytes, escByte, List.cons_append, List.nil_append,
        reduceIte, List.append_assoc]
      unfold parseStrBody
      simp [unesc, ih]
    by_cases h2 : b = 92
    · subst h2; simp only [escBytes, escByte, List.cons_append, List.nil_append,
        reduceIte, List.append_assoc]
      unfold parseStrBody
      simp [unesc, ih]
    by_cases h3 : b = 8
    · subst h3; simp only [escBytes, escByte, List.cons_append, List.nil_append,
        reduceIte, List.append_assoc]
      unfold parseStrBody
      simp [unesc, ih]
    by_cases h4 : b = 9
    · subst h4; simp only [escBytes, escByte, List.cons_append, List.nil_append,
        reduceIte, List.append_assoc]
      unfold parseStrBody
      simp [unesc, ih]
    by_cases h5 : b = 10
    · subst h5; simp only [escBytes, escByte, List.cons_append, List.nil_append,
        reduceIte, List.append_assoc]
      unfold parseStrBody
      simp [unesc, ih]
    by_cases h6 : b = 12
    · subst h6; simp only [escBytes, escByte, List.cons_append, List.nil_append,
        reduceIte, List.append_assoc]
      unfold parseStrBody
      simp [unesc, ih]
    by_cases h7 : b = 13
    · subst h7; simp only [escBytes, escByte, List.cons_append, List.nil_append,
        reduceIte, List.append_assoc]
      unfold parseStrBody
      simp [unesc, ih]
    by_cases h8 : b < 32
    · have e1 : escByte b = [92, 117, 48, 48, hexDigit (b / 16), hexDigit (b % 16)] := by
        simp [escByte, h1, h2, h3, h4, h5, h6, h7, h8]
      have hv1 : hexVal (hexDigit (b / 16)) = some (b / 16) := hexVal_hexDigit _ (by omega)
      have hv2 : hexVal (hexDigit (b % 16)) = some (b % 16) := hexVal_hexDigit _ (by omega)
      have hb : ((0 * 16 + 0) * 16 + b / 16) * 16 + b % 16 = b := by omega
      simp only [escBytes, e1, List.cons_append, List.append_assoc]
      unfold parseStrBody
      have hx1 : hexVal 48 = some 0 := by decide
      simp [hx1, hv1, hv2, ih, hb]
      omega
    · have e1 : escByte b = [b] := by
        simp [escByte, h1, h2, h3, h4, h5, h6, h7, h8]
      simp only [escBytes, e1, List.cons_append, List.nil_append]
      unfold parseStrBody
      simp [h1, h2, ih]

theorem parseStrVal_ser (s rest : Bytes) :
    parseStrVal (serStr s ++ rest) = some (s, rest) := by
  simp only [serStr, List.cons_append, List.append_assoc, List.singleton_append]
  unfold parseStrVal
  simp [expect, parseStrBody_esc]

theorem length_le_serItems (ns : List Bytes) : ns.length ≤ (serItems ns).length := by
  induction ns with
  | nil => simp [serItems]
  | cons n ns ih =>
    cases ns with
    | nil => simp [serItems, serStr]
    | cons m ms =>
      simp only [serItems, serStr] at *
      simp at *
      omega

theorem expect93_serItems (c : Bytes) (cs : List Bytes) (rest : Bytes) :
    expect [93] (serItems (c :: cs) ++ rest) = none := by
  simp [serItems, serStr, expect]

theorem parseItemsF_ser (ns : List Bytes) : ∀ (fuel : Nat) (rest : Bytes),
    ns ≠ [] → ns.length ≤ fuel →
    parseItemsF fuel (serItems ns ++ 93 :: rest) = some (ns, rest) := by
  induction ns with
  | nil => intro fuel rest h; simp at h
  | cons n ns ih =>
    intro fuel rest _ hf
    cases fuel with
    | zero => simp at hf
    | succ f =>
      cases ns with
      | nil =>
        unfold parseItemsF
        simp [serItems, parseStrVal_ser, expect]
      | cons m ms =>
        unfold parseItemsF
        have hser : serItems (n :: m :: ms) = serStr n ++ 44 :: serItems (m :: ms) := by
          simp [serItems]
        rw [hser]
        simp only [List.cons_append, List.append_assoc, List.singleton_append]
        have hi := ih f rest (by simp) (by simp at hf; simp; omega)
        simp [parseStrVal_ser, expect, hi]

theorem parseStrList_ser (cs : List Bytes) (rest : Bytes) :
    parseStrList (serStrList cs ++ rest) = some (cs, rest) := by
  cases cs with
  | nil =>
    unfold parseStrList
    simp [serStrList, serItems, expect]
  | cons c cs =>
    have hlen := length_le_serItems (c :: cs)
    have h1 : parseItemsF ((serItems (c :: cs) ++ 93 :: rest).length)
        (serItems (c :: cs) ++ 93 :: rest) = some (c :: cs, rest) :=
      parseItemsF_ser _ _ _ (by simp) (by simp at hlen ⊢; omega)
    unfold parseStrList
    simp only [serStrList, List.cons_append, List.append_assoc, List.singleton_append]
    simp [expect, expect93_serItems]
    simpa using h1

theorem parseClient_ser (c : ClientMessage) (rest : Bytes) :
    parseClient (serClient c ++ rest) = some (c, rest) := by
  cases c <;>
    (simp only [serClient, serStr, List.cons_append, List.append_assoc,
       List.singleton_append]
     unfold parseClient
     simp [expect, parseStrVal, parseStrBody_esc, tagBroadcast, tagPrivate,
       tagCommand, tagRegister])

theorem parseServer_ser (sm : ServerMessage) (rest : Bytes) :
    parseServer (serServer sm ++ rest) = some (sm, rest) := by
  cases sm <;>
    (simp only [serServer, serStr, List.cons_append, List.append_assoc,
       List.singleton_append]
     unfold parseServer
     simp [expect, parseStrVal, parseStrBody_esc, parseStrList_ser,
       tagBroadcastMessage, tagPrivateMessage, tagUserList, tagError,
       tagSystem, tagHistory, tagExit])

theorem parseMessage_ser (m : Message) : parseMessage (serMessage m) = some m := by
  cases m with
  | Clientmsg c =>
    unfold parseMessage
    simp only [serMessage, List.cons_append, List.append_assoc,
      List.singleton_append]
    simp [expect, kClientmsg, parseClient_ser]
  | Servermsg sm =>
    unfold parseMessage
    simp only [serMessage, List.cons_append, List.append_assoc,
      List.singleton_append]
    simp [expect, kClientmsg, kServermsg, parseServer_ser]

theorem readBE4_be32 (v : Nat) (r : Bytes) : readBE4 (be32 v ++ r) = v % 4294967296 := by
  simp only [be32, List.cons_append, List.nil_append]
  simp only [readBE4]
  omega

theorem drop4_be32 (v : Nat) (r : Bytes) : (be32 v ++ r).drop 4 = r := by
  simp [be32]

theorem decode_encode (m : Message) (h : (serMessage m).length < 4294967296) :
    decode (encode m []) = (DRes.ok (some m), []) := by
  unfold encode decode
  simp only [List.nil_append]
  rw [Nat.mod_eq_of_lt h, readBE4_be32, Nat.mod_eq_of_lt h, drop4_be32]
  simp [be32, parseMessage_ser, List.take_length, List.drop_length]
  split_ifs with ha hb
  · exact absurd ha (by omega)
  · exact absurd hb (by omega)
  · rfl


theorem take_append_len (A X : List Nat) (k : Nat) :
    (A ++ X).take (A.length + k) = A ++ X.take k := by
  induction A with
  | nil => simp
  | cons a A ih =>
    simp only [List.cons_append, List.length_cons]
    rw [show A.length + 1 + k = (A.length + k) + 1 by omega]
    simp [List.take_succ_cons, ih]

theorem drop_append_len (A X : List Nat) (k : Nat) :
    (A ++ X).drop (A.length + k) = X.drop k := by
  induction A with
  | nil => simp
  | cons a A ih =>
    simp only [List.cons_append, List.length_cons]
    rw [show A.length + 1 + k = (A.length + k) + 1 by omega]
    simp [List.drop_succ_cons, ih]

theorem take_append_of_length_eq (A X : List Nat) (n : Nat) (h : A.length = n) :
    (A ++ X).take n = A := by
  subst h
  have h0 := take_append_len A X 0
  simpa using h0

theorem drop_append_of_length_eq (A X : List Nat) (n : Nat) (h : A.length = n) :
    (A ++ X).drop n = X := by
  subst h
  have h0 := drop_append_len A X 0
  simpa using h0

theorem escBytes_replicate97 (n : Nat) :
    escBytes (List.replicate n 97) = List.replicate n 97 := by
  induction n with
  | zero => simp [escBytes]
  | succ k ih => simp [List.replicate_succ, escBytes, escByte, ih]

theorem serMessage_bigMsg :
    serMessage bigMsg = bigPrefix ++ (List.replicate 4294967296 97 ++ bigSuffix) := by
  rw [bigMsg, serMessage, serClient, bigContent]
  rw [show serStr (List.replicate 4294967296 97)
      = 34 :: (List.replicate 4294967296 97 ++ [34]) from by
    rw [serStr, escBytes_replicate97]]
  rw [bigPrefix, bigSuffix]
  simp only [serStr, escBytes, List.cons_append, List.nil_append, List.append_assoc]

theorem length_bigPrefix : bigPrefix.length = 48 := by decide

theorem replicate_big_split :
    List.replicate 4294967296 (97 : Nat)
      = List.replicate 4 97 ++ List.replicate 4294967292 97 := by
  rw [show (4294967296 : Nat) = 4 + 4294967292 by norm_num, List.replicate_add]




theorem cBig_eq : cBig = 52 := by
  unfold cBig
  rw [length_bigPrefix]

theorem encode_def (m : Message) (dst : Bytes) :
    encode m dst = dst ++ be32 ((serMessage m).length % 4294967296) ++ serMessage m := rfl



theorem length_bigSuffix : bigSuffix.length = 4 := by decide

theorem length_bigPayload :
    (bigPrefix ++ (List.replicate 4294967296 97 ++ bigSuffix)).length = 4294967348 := by
  rw [List.length_append, List.length_append, List.length_replicate,
    length_bigPrefix, length_bigSuffix]

theorem bigHenc : encode bigMsg []
    = be32 cBig ++ (bigPrefix ++ (List.replicate 4294967296 97 ++ bigSuffix)) := by
  rw [encode_def, serMessage_bigMsg]
  simp only [List.nil_append]
  rw [length_bigPayload, show (4294967348 : Nat) % 4294967296 = 52 from by norm_num,
    show (52 : Nat) = cBig from by rw [cBig_eq]]

theorem decodeBig : decode (encode bigMsg []) = (DRes.err, bigRest) := by
  rw [bigHenc]
  unfold decode
  have hlen : (be32 cBig ++ (bigPrefix ++ (List.replicate 4294967296 97 ++ bigSuffix))).length
      = 4294967352 := by
    rw [List.length_append, length_bigPayload, show (be32 cBig).length = 4 from by
      simp [be32]]
  have h1 : ¬ ((be32 cBig ++ (bigPrefix ++ (List.replicate 4294967296 97 ++ bigSuffix))).length
      < 4) := by
    rw [hlen]
    omega
  have hc : cBig % 4294967296 = cBig := by rw [cBig_eq]
  have h2 : ¬ ((be32 cBig ++ (bigPrefix ++ (List.replicate 4294967296 97 ++ bigSuffix))).length
      < 4 + cBig) := by
    rw [hlen, cBig_eq]
    omega
  have hdata : (bigPrefix ++ (List.replicate 4294967296 97 ++ bigSuffix)).take cBig
      = bigPrefix ++ List.replicate 4 97 := by
    rw [show cBig = bigPrefix.length + 4 from rfl]
    rw [take_append_len, replicate_big_split, List.append_assoc]
    rw [take_append_of_length_eq _ _ 4 (by rw [List.length_replicate])]
  have hrest : (bigPrefix ++ (List.replicate 4294967296 97 ++ bigSuffix)).drop cBig
      = bigRest := by
    rw [show cBig = bigPrefix.length + 4 from rfl]
    rw [drop_append_len, replicate_big_split, List.append_assoc]
    rw [drop_append_of_length_eq _ _ 4 (by rw [List.length_replicate])]
    rw [bigRest]
  have hparse : parseMessage (bigPrefix ++ List.replicate 4 97) = none := by decide
  rw [if_neg h1, readBE4_be32, hc, if_neg h2, drop4_be32, hdata, hrest]
  simp only [hparse]


theorem decode_nil : decode [] = (DRes.ok none, []) := by decide

theorem decode_prefix_incomplete (m : Message) (t s : Bytes)
    (hlen : (serMessage m).length < 4294967296)
    (happ : t ++ s = encode m []) (hs : s ≠ []) :
    decode t = (DRes.ok none, t) := by
  rw [encode_def] at happ
  simp only [List.nil_append] at happ
  rw [Nat.mod_eq_of_lt hlen] at happ
  by_cases h4 : t.length < 4
  · unfold decode
    rw [if_pos h4]
  · rcases t with _ | ⟨x0, t1⟩
    · simp at h4
    rcases t1 with _ | ⟨x1, t2⟩
    · simp at h4
    rcases t2 with _ | ⟨x2, t3⟩
    · simp at h4
    rcases t3 with _ | ⟨x3, t4⟩
    · simp at h4
    simp only [be32, List.cons_append, List.nil_append, List.cons.injEq] at happ
    obtain ⟨hx0, hx1, hx2, hx3, ht4⟩ := happ
    subst hx0 hx1 hx2 hx3
    have hser : (serMessage m).length = t4.length + s.length := by
      rw [← ht4]
      simp
    have hcons : (serMessage m).length / 16777216 % 256 :: (serMessage m).length / 65536 % 256 ::
        (serMessage m).length / 256 % 256 :: (serMessage m).length % 256 :: t4
        = be32 ((serMessage m).length) ++ t4 := by
      simp [be32]
    unfold decode
    rw [hcons, readBE4_be32, Nat.mod_eq_of_lt hlen]
    have hlt : (be32 ((serMessage m).length) ++ t4).length < 4 + (serMessage m).length := by
      simp only [List.length_append, List.length_cons, List.length_nil, be32]
      have hs1 : 1 ≤ s.length := by
        cases s with
        | nil => exact absurd rfl hs
        | cons a s => simp
      omega
    rw [if_neg (by rw [hcons] at h4; exact h4), if_pos hlt]

theorem feedDecode_nilJoin (ps : List Bytes) (h : ps.flatten = []) :
    feedDecode ps [] = ([], []) := by
  induction ps with
  | nil => rfl
  | cons p ps ih =>
    simp only [List.flatten_cons, List.append_eq_nil] at h
    obtain ⟨hp, hps⟩ := h
    subst hp
    unfold feedDecode
    rw [List.nil_append, decode_nil]
    exact ih hps

theorem feedDecode_encode (m : Message) (hlen : (serMessage m).length < 4294967296) :
    ∀ (ps : List Bytes) (t : Bytes),
    t ++ ps.flatten = encode m [] → ps.flatten ≠ [] → feedDecode ps t = ([m], []) := by
  intro ps
  induction ps with
  | nil => intro t h hne; simp at hne
  | cons p ps ih =>
    intro t happ hne
    by_cases hj : ps.flatten = []
    · have hb : t ++ p = encode m [] := by
        rw [← happ]
        simp [hj]
      unfold feedDecode
      rw [hb, decode_encode m hlen]
      simp [feedDecode_nilJoin ps hj]
    · have hsplit : (t ++ p) ++ ps.flatten = encode m [] := by
        rw [← happ]
        simp
      have hd := decode_prefix_incomplete m (t ++ p) ps.flatten hlen hsplit hj
      unfold feedDecode
      rw [hd]
      exact ih (t ++ p) hsplit hj


theorem assocGet_update_self {α : Type} (l : List (Bytes × α)) (k : Bytes) (v : α) :
    assocGet (assocUpdate l k v) k = some v := by
  induction l with
  | nil => simp [assocUpdate, assocGet]
  | cons p t ih =>
    rcases p with ⟨k2, w⟩
    by_cases h : k2 = k
    · subst h
      simp [assocUpdate, assocGet]
    · simp [assocUpdate, assocGet, h, ih]

theorem assocGet_update_other {α : Type} (l : List (Bytes × α)) (k k2 : Bytes) (v : α)
    (h : k2 ≠ k) : assocGet (assocUpdate l k v) k2 = assocGet l k2 := by
  induction l with
  | nil =>
    simp [assocUpdate, assocGet, Ne.symm h]
  | cons p t ih =>
    rcases p with ⟨k3, w⟩
    by_cases h3 : k3 = k
    · subst h3
      simp [assocUpdate, assocGet, Ne.symm h, h]
    · simp [assocUpdate, assocGet, h3, ih]

theorem getLast_histPush (l : List Bytes) (x : Bytes) :
    (histPush l x).getLast? = some x := by
  unfold histPush
  dsimp only
  split_ifs with h
  · cases l with
    | nil => simp [MAX_HISTORY_SIZE] at h
    | cons a t =>
      simp [List.getLast?_concat]
  · simp [List.getLast?_concat]

theorem dispatch_clients (from_ to_ content : Bytes) (st : ServerState) :
    (dispatch from_ to_ content st).1.clients = st.clients := by
  unfold dispatch
  dsimp only
  cases assocGet st.clients to_ with
  | some tx => rfl
  | none =>
    cases assocGet st.clients from_ with
    | some tx => rfl
    | none => rfl

theorem dispatch_private_history (from_ to_ content : Bytes) (st : ServerState) :
    (dispatch from_ to_ content st).1.private_history = assocUpdate (assocUpdate st.private_history from_ (histPush (histGet st.private_history from_) (fmtYouTo to_ content))) to_ (histPush (histGet (assocUpdate st.private_history from_ (histPush (histGet st.private_history from_) (fmtYouTo to_ content))) to_) (fmtFromYou from_ content)) := by
  unfold dispatch
  dsimp only
  cases assocGet st.clients to_ with
  | some tx => rfl
  | none =>
    cases assocGet st.clients from_ with
    | some tx => rfl
    | none => rfl


theorem encode_ne_nil (m : Message) : encode m [] ≠ [] := by
  rw [encode_def]
  simp [be32]

/-- Claim C1 (amended): for every envelope whose serialized payload is shorter
than two to the thirty-two symbols, the encoding is the 4-byte big-endian
length prefix followed by exactly that many payload symbols, and decoding the
encoded bytes yields exactly the original envelope with nothing left over. -/
theorem c1_codec_roundtrip (m : Message)
    (h : (serMessage m).length < 4294967296) :
    encode m [] = be32 (serMessage m).length ++ serMessage m ∧
    decode (encode m []) = (DRes.ok (some m), []) :=
  ⟨by rw [encode_def, Nat.mod_eq_of_lt h, List.nil_append], decode_encode m h⟩

/-- Witness for C1 at a concrete register envelope. -/
theorem c1_codec_roundtrip_witness :
    (serMessage (Message.Clientmsg (ClientMessage.Register [66]))).length < 4294967296 ∧
    (encode (Message.Clientmsg (ClientMessage.Register [66])) []
       = be32 (serMessage (Message.Clientmsg (ClientMessage.Register [66]))).length
         ++ serMessage (Message.Clientmsg (ClientMessage.Register [66])) ∧
     decode (encode (Message.Clientmsg (ClientMessage.Register [66])) [])
       = (DRes.ok (some (Message.Clientmsg (ClientMessage.Register [66]))), [])) :=
  ⟨by decide, c1_codec_roundtrip (Message.Clientmsg (ClientMessage.Register [66])) (by decide)⟩

/-- Counterexample to C1 as stated: for the envelope whose payload is two to
the thirty-two letters long, the length prefix wraps around, decode truncates
the payload, deserialization fails, and the round trip does not return the
envelope. -/
theorem c1_codec_roundtrip_counterexample :
    decode (encode bigMsg []) ≠ (DRes.ok (some bigMsg), []) := by
  rw [decodeBig]
  intro heq
  exact DRes.noConfusion (congrArg Prod.fst heq)

/-- Claim C2 (amended): a buffer with fewer than 4 bytes, or fewer than
4 plus the declared length, decodes to incomplete with the buffer unconsumed;
and for every envelope whose serialized payload is shorter than two to the
thirty-two symbols, splitting its encoding at any byte offsets and feeding
the pieces to decode across successive calls produces exactly one successful
decode, equal to the envelope, with an empty final buffer. -/
theorem c2_resumable_reassembly :
    (∀ src : Bytes, src.length < 4 ∨ src.length < 4 + readBE4 src →
      decode src = (DRes.ok none, src)) ∧
    (∀ (m : Message) (pieces : List Bytes),
      (serMessage m).length < 4294967296 → pieces.flatten = encode m [] →
      feedDecode pieces [] = ([m], [])) := by
  constructor
  · intro src h
    unfold decode
    by_cases h4 : src.length < 4
    · rw [if_pos h4]
    · rcases h with h | h
      · exact absurd h h4
      · rw [if_neg h4, if_pos h]
  · intro m pieces hlen hj
    apply feedDecode_encode m hlen pieces []
    · rw [List.nil_append]
      exact hj
    · rw [hj]
      exact encode_ne_nil m

/-- Witness for C2: a short buffer is left intact, and a concrete encoded
private message split at offset three reassembles to exactly one decode. -/
theorem c2_resumable_reassembly_witness :
    decode [0, 0, 5] = (DRes.ok none, [0, 0, 5]) ∧
    feedDecode
      [(encode (Message.Clientmsg (ClientMessage.Private [65] [66] [104, 105])) []).take 3,
       (encode (Message.Clientmsg (ClientMessage.Private [65] [66] [104, 105])) []).drop 3] []
      = ([Message.Clientmsg (ClientMessage.Private [65] [66] [104, 105])], []) :=
  ⟨c2_resumable_reassembly.1 [0, 0, 5] (Or.inl (by decide)),
   c2_resumable_reassembly.2 (Message.Clientmsg (ClientMessage.Private [65] [66] [104, 105]))
     [(encode (Message.Clientmsg (ClientMessage.Private [65] [66] [104, 105])) []).take 3,
      (encode (Message.Clientmsg (ClientMessage.Private [65] [66] [104, 105])) []).drop 3]
     (by decide) (by decide)⟩


theorem feedDecode_single_err (p r : Bytes) (hp : decode p = (DRes.err, r)) :
    feedDecode [p] [] = ([], r) := by
  unfold feedDecode
  rw [List.nil_append, hp]

theorem feedBigA : feedDecode [encode bigMsg []] [] = ([], bigRest) :=
  feedDecode_single_err (encode bigMsg []) bigRest decodeBig
/-- Claim C3, code divergence: with a private history already holding the
full capacity of 100 entries, processing a history command appends the
journal line without eviction, leaving 101 entries, which exceeds the
capacity bound the claim states. -/
theorem c3_history_append_unbounded :
    (histGet (command [65] litHistoryCmd
      { clients := [([65], 5)], broadcast_history := [],
        private_history := [([65], List.replicate 100 [104])] }).1.private_history
      [65]).length = 101 := by decide

/-- Claim C4: processing a private intent appends the sender-side line to
the sender history and the recipient-side line to the recipient history,
for every starting state, in particular whether or not the target name is in
the directory. -/
theorem c4_private_history_symmetry (st : ServerState) (from_ to_ content : Bytes)
    (h : from_ ≠ to_) :
    (histGet (dispatch from_ to_ content st).1.private_history from_).getLast?
        = some (fmtYouTo to_ content) ∧
    (histGet (dispatch from_ to_ content st).1.private_history to_).getLast?
        = some (fmtFromYou from_ content) := by
  rw [dispatch_private_history]
  constructor
  · simp [histGet, assocGet_update_other _ _ _ _ h, assocGet_update_self, getLast_histPush]
  · simp [histGet, assocGet_update_self, getLast_histPush]

/-- Witness for C4 on the empty state, where the target is offline. -/
theorem c4_private_history_symmetry_witness :
    ([65] : Bytes) ≠ [66] ∧
    ((histGet (dispatch [65] [66] [104] ⟨[], [], []⟩).1.private_history [65]).getLast?
        = some (fmtYouTo [66] [104]) ∧
     (histGet (dispatch [65] [66] [104] ⟨[], [], []⟩).1.private_history [66]).getLast?
        = some (fmtFromYou [65] [104])) :=
  ⟨by decide, c4_private_history_symmetry ⟨[], [], []⟩ [65] [66] [104] (by decide)⟩


/-- Counterexample to C2 as stated: feeding the whole encoding of the
oversized envelope produces zero successful decodes instead of one. -/
theorem c2_resumable_reassembly_counterexample :
    feedDecode [encode bigMsg []] [] ≠ ([bigMsg], []) := by
  rw [feedBigA]
  intro heq
  have h1 : ([] : List Message) = [bigMsg] := congrArg Prod.fst heq
  exact List.noConfusion h1


/-- Claim C5: a history command journals the request line into the sender
private history first, and the reply text is the global header, the global
history in order, the private header, then the private history in order,
whose last entry is the just-journaled request line. -/
theorem c5_history_self_inclusion (st : ServerState) (from_ : Bytes) (hdl : Nat)
    (hcl : assocGet st.clients from_ = some hdl) :
    (command from_ litHistoryCmd st).2
      = [(hdl, Message.Servermsg (ServerMessage.History
          (List.intercalate [10] (litHdrBroadcast :: (st.broadcast_history ++
            litHdrPrivate :: (histGet st.private_history from_ ++ [fmtYouIssued litHistoryCmd]))))
          from_))] ∧
    histGet (command from_ litHistoryCmd st).1.private_history from_
      = histGet st.private_history from_ ++ [fmtYouIssued litHistoryCmd] ∧
    (histGet (command from_ litHistoryCmd st).1.private_history from_).getLast?
      = some (fmtYouIssued litHistoryCmd) := by
  unfold command
  rw [if_neg (by decide), if_pos rfl]
  dsimp only
  simp [hcl, histGet, assocGet_update_self, List.getLast?_concat]

/-- Witness for C5 on a concrete one-user state. -/
theorem c5_history_self_inclusion_witness :
    assocGet ({ clients := [([65], 3)], broadcast_history := [[120]],
                private_history := [([65], [[121]])] } : ServerState).clients [65] = some 3 ∧
    ((command [65] litHistoryCmd
        { clients := [([65], 3)], broadcast_history := [[120]],
          private_history := [([65], [[121]])] }).2
      = [(3, Message.Servermsg (ServerMessage.History
          (List.intercalate [10] (litHdrBroadcast :: ([[120]] ++
            litHdrPrivate :: (histGet [([65], [[121]])] [65] ++ [fmtYouIssued litHistoryCmd]))))
          [65]))] ∧
    histGet (command [65] litHistoryCmd
        { clients := [([65], 3)], broadcast_history := [[120]],
          private_history := [([65], [[121]])] }).1.private_history [65]
      = histGet [([65], [[121]])] [65] ++ [fmtYouIssued litHistoryCmd] ∧
    (histGet (command [65] litHistoryCmd
        { clients := [([65], 3)], broadcast_history := [[120]],
          private_history := [([65], [[121]])] }).1.private_history [65]).getLast?
      = some (fmtYouIssued litHistoryCmd)) :=
  ⟨by decide, c5_history_self_inclusion _ [65] 3 (by decide)⟩

/-- Claim C6: a private intent whose target is absent from the directory
enqueues exactly one error reply, to the sender handle only; a private intent
whose target is present enqueues exactly one private message to the target
handle and nothing else. -/
theorem c6_missing_target (st : ServerState) (from_ to_ content : Bytes) :
    (∀ hdl : Nat, assocGet st.clients to_ = none → assocGet st.clients from_ = some hdl →
      (dispatch from_ to_ content st).2
        = [(hdl, Message.Servermsg (ServerMessage.Error litPrivateError from_))]) ∧
    (∀ hdl : Nat, assocGet st.clients to_ = some hdl →
      (dispatch from_ to_ content st).2
        = [(hdl, Message.Servermsg (ServerMessage.PrivateMessage from_ to_ content))]) := by
  constructor
  · intro hdl hto hfrom
    unfold dispatch
    dsimp only
    simp [hto, hfrom]
  · intro hdl hto
    unfold dispatch
    dsimp only
    simp [hto]

/-- Witness for C6 on concrete one-user and two-user states. -/
theorem c6_missing_target_witness :
    (assocGet ([([65], 9)] : List (Bytes × Nat)) [66] = none ∧
     assocGet ([([65], 9)] : List (Bytes × Nat)) [65] = some 9 ∧
     (dispatch [65] [66] [104] { clients := [([65], 9)], broadcast_history := [],
                                 private_history := [] }).2
       = [(9, Message.Servermsg (ServerMessage.Error litPrivateError [65]))]) ∧
    (assocGet ([([65], 9), ([66], 8)] : List (Bytes × Nat)) [66] = some 8 ∧
     (dispatch [65] [66] [104] { clients := [([65], 9), ([66], 8)], broadcast_history := [],
                                 private_history := [] }).2
       = [(8, Message.Servermsg (ServerMessage.PrivateMessage [65] [66] [104]))]) :=
  ⟨⟨by decide, by decide,
    (c6_missing_target _ [65] [66] [104]).1 9 (by decide) (by decide)⟩,
   ⟨by decide,
    (c6_missing_target _ [65] [66] [104]).2 8 (by decide)⟩⟩

/-- Claim C7, code divergence: an unknown command does produce exactly one
error reply addressed to the sender, but its content is the no-user-online
text the source reuses on that branch, not a text indicating an unknown
command. -/
theorem c7_unknown_command_text :
    (command [65] [47, 102, 111, 111]
      { clients := [([65], 7)], broadcast_history := [], private_history := [] }).2
      = [(7, Message.Servermsg (ServerMessage.Error litNoUserOnline [65]))] := by decide


/-- Claim C8 (amended): a users command journals the request with eviction
and snapshots the directory; when the sender is registered the snapshot is
nonempty and the sender receives exactly one reply, a user list carrying
exactly the snapshot names; when the directory is empty no reply is enqueued
to anyone, because the sender handle lookup fails. -/
theorem c8_users_reply :
    (∀ (st : ServerState) (from_ : Bytes) (hdl : Nat),
      assocGet st.clients from_ = some hdl →
      (command from_ litUsersCmd st).2
        = [(hdl, Message.Servermsg (ServerMessage.UserList (st.clients.map Prod.fst) from_))] ∧
      st.clients.map Prod.fst ≠ [] ∧
      histGet (command from_ litUsersCmd st).1.private_history from_
        = histPush (histGet st.private_history from_) (fmtYouIssued litUsersCmd)) ∧
    (∀ (st : ServerState) (from_ : Bytes), st.clients = [] →
      (command from_ litUsersCmd st).2 = []) := by
  constructor
  · intro st from_ hdl hcl
    have hne : st.clients ≠ [] := by
      intro hc
      rw [hc] at hcl
      simp [assocGet] at hcl
    have hmap : st.clients.map Prod.fst ≠ [] := by
      simpa using hne
    unfold command
    rw [if_pos rfl]
    dsimp only
    simp [hcl, hmap, histGet, assocGet_update_self]
  · intro st from_ hcl
    unfold command
    rw [if_pos rfl]
    dsimp only
    simp [hcl, assocGet]

/-- Witness for C8 on a concrete one-user state and the empty state. -/
theorem c8_users_reply_witness :
    (assocGet ([([65], 4)] : List (Bytes × Nat)) [65] = some 4 ∧
     ((command [65] litUsersCmd { clients := [([65], 4)], broadcast_history := [],
                                  private_history := [] }).2
        = [(4, Message.Servermsg (ServerMessage.UserList [[65]] [65]))] ∧
      ([[65]] : List Bytes) ≠ [] ∧
      histGet (command [65] litUsersCmd { clients := [([65], 4)], broadcast_history := [],
                                          private_history := [] }).1.private_history [65]
        = histPush (histGet [] [65]) (fmtYouIssued litUsersCmd))) ∧
    (command [66] litUsersCmd { clients := [], broadcast_history := [],
                                private_history := [] }).2 = [] :=
  ⟨⟨by decide, c8_users_reply.1 _ [65] 4 (by decide)⟩,
   c8_users_reply.2 _ [66] rfl⟩

/-- Counterexample to C8 as stated: with an empty directory snapshot the
claim says the sender receives the no-user-online system reply, but the code
enqueues nothing at all, since the sender handle is not found. -/
theorem c8_users_reply_counterexample :
    (command [65] litUsersCmd
      { clients := [], broadcast_history := [], private_history := [] }).2 = [] := by decide


/-- Claim C9: on shutdown with pairwise distinct handles, every registered
handle is enqueued exactly one exit notice, every trace action before the
final one is such a send, the directory clear is the last action, and the
directory is empty afterwards. -/
theorem c9_shutdown_fanout (st : ServerState)
    (hnd : (st.clients.map Prod.snd).Nodup) :
    (∀ tx : Nat, tx ∈ st.clients.map Prod.snd →
      (shutdownTrace st).count (Act.send tx exitMsg) = 1) ∧
    (∀ a ∈ (shutdownTrace st).dropLast, ∃ tx : Nat, a = Act.send tx exitMsg) ∧
    (shutdownTrace st).getLast? = some Act.clearClients ∧
    (runShutdown st).clients = [] := by
  refine ⟨?_, ?_, ?_, ?_⟩
  · intro tx htx
    unfold shutdownTrace
    rw [List.count_append]
    have hmap : st.clients.map (fun p => Act.send p.2 exitMsg)
        = (st.clients.map Prod.snd).map (fun h => Act.send h exitMsg) := by
      rw [List.map_map]
      rfl
    have hinj : Function.Injective (fun h : Nat => Act.send h exitMsg) := by
      intro a b hab
      simpa using hab
    rw [hmap, List.count_map_of_injective _ _ hinj, List.count_eq_one_of_mem hnd htx]
    have h0 : List.count (Act.send tx exitMsg) [Act.clearClients] = 0 := by
      rw [List.count_eq_zero]
      simp
    rw [h0]
  · intro a ha
    unfold shutdownTrace at ha
    rw [List.dropLast_concat] at ha
    rw [List.mem_map] at ha
    obtain ⟨p, _, hp⟩ := ha
    exact ⟨p.2, hp.symm⟩
  · unfold shutdownTrace
    rw [List.getLast?_concat]
  · unfold runShutdown shutdownTrace
    rw [List.foldl_append]
    have hfold : ∀ (l : List (Bytes × Nat)) (s : ServerState),
        (l.map fun p => Act.send p.2 exitMsg).foldl applyAct s = s := by
      intro l
      induction l with
      | nil => intro s; rfl
      | cons p t ih => intro s; simp only [List.map_cons, List.foldl_cons, applyAct, ih]
    rw [hfold]
    rfl

/-- Witness for C9 on a concrete two-user state. -/
theorem c9_shutdown_fanout_witness :
    (([([65], 1), ([66], 2)] : List (Bytes × Nat)).map Prod.snd).Nodup ∧
    ((shutdownTrace { clients := [([65], 1), ([66], 2)], broadcast_history := [],
                      private_history := [] }).count (Act.send 1 exitMsg) = 1 ∧
     (shutdownTrace { clients := [([65], 1), ([66], 2)], broadcast_history := [],
                      private_history := [] }).count (Act.send 2 exitMsg) = 1 ∧
     (runShutdown { clients := [([65], 1), ([66], 2)], broadcast_history := [],
                    private_history := [] }).clients = []) :=
  ⟨by decide,
   (c9_shutdown_fanout _ (by decide)).1 1 (by decide),
   (c9_shutdown_fanout _ (by decide)).1 2 (by decide),
   (c9_shutdown_fanout _ (by decide)).2.2.2⟩

theorem suspendsUnderLock_replicate_send (n : Nat) (tail : List Step) :
    suspendsUnderLock (List.replicate n Step.queueSend ++ tail) 0
      = suspendsUnderLock tail 0 := by
  induction n with
  | zero => rfl
  | succ k ih =>
    rw [List.replicate_succ, List.cons_append]
    have hstep : suspendsUnderLock
        (Step.queueSend :: (List.replicate k Step.queueSend ++ tail)) 0
        = (decide (0 < 0) || suspendsUnderLock (List.replicate k Step.queueSend ++ tail) 0) :=
      rfl
    rw [hstep, ih]
    simp


theorem sul_acquire (l : List Step) (d : Nat) :
    suspendsUnderLock (Step.lockAcquire :: l) d = suspendsUnderLock l (d + 1) := rfl

theorem sul_release (l : List Step) (d : Nat) :
    suspendsUnderLock (Step.lockRelease :: l) d = suspendsUnderLock l (d - 1) := rfl

theorem sul_mem (l : List Step) (d : Nat) :
    suspendsUnderLock (Step.memOp :: l) d = suspendsUnderLock l d := rfl

theorem sul_send (l : List Step) (d : Nat) :
    suspendsUnderLock (Step.queueSend :: l) d = (decide (0 < d) || suspendsUnderLock l d) :=
  rfl

theorem sul_replicate_send_nil (n : Nat) :
    suspendsUnderLock (List.replicate n Step.queueSend) 0 = false := by
  rw [← List.append_nil (List.replicate n Step.queueSend),
    suspendsUnderLock_replicate_send]
  rfl

theorem sul_replicate_send_pos (n d : Nat) (tail : List Step) :
    suspendsUnderLock (List.replicate (n + 1) Step.queueSend ++ tail) (d + 1) = true := by
  rw [List.replicate_succ, List.cons_append, sul_send]
  simp

/-- Claim C10 (amended): the guard is not held across any suspension point
in the broadcast fan-out, the join-notice fan-out or the shutdown fan-out,
but it is held across the outbound-queue send in the private-message reply
path, in all three command reply paths, and across every send of the
leave-notice fan-out. -/
theorem c10_guard_discipline :
    guardHeldAcrossSuspension dispatchPresentSteps = true ∧
    guardHeldAcrossSuspension commandUsersSteps = true ∧
    guardHeldAcrossSuspension commandHistorySteps = true ∧
    guardHeldAcrossSuspension commandUnknownSteps = true ∧
    (∀ n, guardHeldAcrossSuspension (broadcastSteps n) = false) ∧
    (∀ n, guardHeldAcrossSuspension (registerSteps n) = false) ∧
    (∀ n, guardHeldAcrossSuspension (shutdownSteps n) = false) ∧
    (∀ n, guardHeldAcrossSuspension (leaveSteps (n + 1)) = true) := by
  refine ⟨by decide, by decide, by decide, by decide, ?_, ?_, ?_, ?_⟩
  · intro n
    simp [guardHeldAcrossSuspension, broadcastSteps, sul_acquire, sul_release,
      sul_mem, sul_send, sul_replicate_send_nil]
  · intro n
    simp [guardHeldAcrossSuspension, registerSteps, sul_acquire, sul_release,
      sul_mem, sul_send, sul_replicate_send_nil]
  · intro n
    simp [guardHeldAcrossSuspension, shutdownSteps, sul_acquire, sul_release,
      sul_mem, sul_send, suspendsUnderLock_replicate_send]
    rfl
  · intro n
    simp [guardHeldAcrossSuspension, leaveSteps, sul_acquire, sul_release,
      sul_mem, sul_send, sul_replicate_send_pos]

/-- Counterexample to C10 as stated: the private-message reply path of
dispatch awaits the outbound-queue send while the shared-state guard taken in
the if-let scrutinee is still held. -/
theorem c10_guard_discipline_counterexample :
    guardHeldAcrossSuspension dispatchPresentSteps = true := by decide
